import Mathlib

set_option maxRecDepth 8192

/-!
Shallow embedding of the Memory & Semantic Retrieval Engine of this repository
(`app/lib/memory/manager.ts`, `app/lib/memory/semantic-search.ts`,
`app/lib/memory/context-analyzer.ts`, `app/lib/memory/types.ts`) together with
proofs about the claims of its specification.

Modelling conventions:
* JavaScript `number` values that carry scores, similarities and embedding
  coordinates are modelled as real numbers (`ℝ`); importance and confidence
  values, which are only ever compared against rational literals, are
  modelled as `ℚ`; millisecond timestamps are `ℤ`; counters are `ℕ`.
* A JavaScript `Map` is modelled as an insertion-ordered association list;
  the authoritative entry table is a `List MemoryEntry` (unique ids being a
  `Map` guarantee, stated as a `Nodup` hypothesis where a proof needs it).
* The in-place mutation `result.entry.accessCount++` of `searchMemories`
  aliases entries of the table; the model updates the table by counting, for
  every entry id, the number of result items whose entry has that id.
* Failure of the persistence collaborator is modelled by the boolean
  parameter `persistOk` of `storeMemory`; the engine performs exactly one
  persistence attempt per store (no retry is modelled because none exists in
  the source).
-/

/-- Substring test, the model of JavaScript `String.prototype.includes`:
`substrB needle haystack` is true iff `needle` occurs contiguously in
`haystack` (the empty needle always occurs, as in JavaScript). -/
def substrB (needle haystack : String) : Bool :=
  haystack.data.tails.any (fun t => needle.data.isPrefixOf t)

/-- One step of the model of JavaScript `split(/\s+/)`, consuming characters
from the right: the state is the token list built so far plus a flag telling
whether the previously consumed character was whitespace. -/
def splitWSStep (c : Char) (st : List (List Char) × Bool) : List (List Char) × Bool :=
  if c.isWhitespace then
    if st.2 then (st.1, true) else ([] :: st.1, true)
  else
    match st.1 with
    | t :: rest => ((c :: t) :: rest, false)
    | [] => ([[c]], false)

/-- Model of JavaScript `s.split(/\s+/)`: the (possibly empty) pieces between
maximal whitespace runs, including an empty leading piece when the string
starts with whitespace and an empty trailing piece when it ends with one. -/
def splitWS (s : String) : List String :=
  ((s.data.foldr splitWSStep ([[]], false)).1).map (fun cs => String.mk cs)

/-- ASCII lower-casing via a plain character map, the model of JavaScript
`toLowerCase` (the source only ever lowercases ASCII search terms, content
and tags); defined over the character list so that it reduces by
computation, unlike `String.toLower`, whose position-based recursion does
not reduce in the kernel. -/
def jsToLower (s : String) : String :=
  String.mk (s.data.map (fun c => c.toLower))

/-- First-occurrence-preserving deduplication, the model of
`[...new Set(list)]` on string lists. -/
def dedupKeywords (l : List String) : List String :=
  l.foldl (fun acc x => if acc.contains x then acc else acc ++ [x]) []

/-- Lookup in an insertion-ordered association list (model of `Map.get`). -/
def lookupAssoc : List (String × List ℝ) → String → Option (List ℝ)
  | [], _ => none
  | (k, v) :: rest, key => if k == key then some v else lookupAssoc rest key

/-- Model of `Map.set` on the semantic-embedding map: replace the value of an
existing key in place, otherwise append the new binding. -/
def setAssoc : List (String × List ℝ) → String → List ℝ → List (String × List ℝ)
  | [], k, v => [(k, v)]
  | (k0, v0) :: rest, k, v =>
    if k0 == k then (k, v) :: rest else (k0, v0) :: setAssoc rest k v

/-- Truncation of a JavaScript number to a signed 32-bit integer, as performed
by the bitwise operators used in the string hash functions. -/
def toInt32 (n : ℤ) : ℤ :=
  (n + 2 ^ 31) % 2 ^ 32 - 2 ^ 31

/-- The 31-multiplier string hash shared by `hashWordToDimension` and
`getCacheKey` in `semantic-search.ts`: `hash = ((hash << 5) - hash) + char`
followed by the 32-bit coercion `hash = hash & hash`. -/
def hashChars (cs : List Char) : ℤ :=
  cs.foldl (fun hash c => toInt32 (toInt32 (hash * 32) - hash + c.toNat)) 0

/-- Entity record extracted by the context analyzer (`types.ts`). -/
structure ExtractedEntity where
  type : String
  name : String
  context : String
  confidence : ℚ

/-- Code reference record (`types.ts`). -/
structure CodeReference where
  filePath : String
  startLine : Option ℤ
  endLine : Option ℤ
  functionName : Option String
  className : Option String
  language : String
  snippet : String

/-- Enrichment envelope attached to every entry (`types.ts`). -/
structure MemoryMetadata where
  source : String
  projectId : Option String
  sessionId : Option String
  userId : Option String
  fileReferences : List String
  codeReferences : List CodeReference
  entities : List ExtractedEntity
  summary : String
  keywords : List String
  confidence : ℚ

/-- Caller-supplied metadata overrides (TypeScript Partial of MemoryMetadata):
every field may be absent. -/
structure PartialMemoryMetadata where
  source : Option String
  projectId : Option String
  sessionId : Option String
  userId : Option String
  fileReferences : Option (List String)
  codeReferences : Option (List CodeReference)
  entities : Option (List ExtractedEntity)
  summary : Option String
  keywords : Option (List String)
  confidence : Option ℚ

/-- The unit of storage (`types.ts`). `embedding` is optional, exactly as in
the source. -/
structure MemoryEntry where
  id : String
  type : String
  content : String
  metadata : MemoryMetadata
  embedding : Option (List ℝ)
  createdAt : ℤ
  updatedAt : ℤ
  accessCount : ℕ
  lastAccessed : ℤ
  importance : ℚ
  tags : List String
  relatedEntries : List String

/-- Match channel of a search result (`types.ts`). -/
inductive MatchType where
  | exact
  | semantic
  | related
  | temporal
deriving DecidableEq, Repr

/-- A single search result (`types.ts`). -/
structure MemorySearchResult where
  entry : MemoryEntry
  score : ℝ
  relevance : ℝ
  matchType : MatchType
  highlights : List String

/-- A query (`types.ts`). The `entities` and `keywords` filter fields exist on
the TypeScript interface but are never consulted by `searchMemories`; they are
kept for fidelity. -/
structure MemoryQuery where
  text : Option String
  type : Option String
  tags : Option (List String)
  projectId : Option String
  timeRange : Option (ℤ × ℤ)
  entities : Option (List String)
  keywords : Option (List String)
  minImportance : Option ℚ
  maxResults : Option ℕ
  includeRelated : Bool
  semanticSearch : Bool

/-- Temporal secondary indexes (`types.ts`). -/
structure TemporalIndex where
  byDay : List (String × List String)
  byWeek : List (String × List String)
  byMonth : List (String × List String)
  recent : List String

/-- Semantic cluster record (`types.ts`); carried for fidelity, never
populated by the modelled operations (`clusterEmbeddings` is out of scope). -/
structure SemanticCluster where
  id : String
  centroid : List ℝ
  members : List String
  topic : String
  keywords : List String

/-- Semantic index (`types.ts`). -/
structure SemanticIndex where
  embeddings : List (String × List ℝ)
  clusters : List SemanticCluster
  similarityThreshold : ℝ

/-- The full secondary index store (`types.ts`). -/
structure MemoryIndex where
  byType : List (String × List String)
  byTag : List (String × List String)
  byProject : List (String × List String)
  byEntity : List (String × List String)
  byKeyword : List (String × List String)
  temporal : TemporalIndex
  semantic : SemanticIndex

/-- The mutable state owned by the `MemoryManager` singleton: the
authoritative table (`_memories`, a `Map` in insertion order), the index
(`_index`) and the embedding cache of its `SemanticSearch` collaborator.
`_stats` is not modelled (no claim concerns it). -/
structure ManagerState where
  table : List MemoryEntry
  index : MemoryIndex
  cache : List (String × List ℝ)

/-- Fractional digits of `r / d` (at most `fuel` digits); used by the model of
JSON number printing. -/
def fracDigits : ℕ → ℕ → ℕ → String
  | 0, _, _ => ""
  | _, 0, _ => ""
  | fuel + 1, r, d => toString (r * 10 / d) ++ fracDigits fuel (r * 10 % d) d

/-- Model of JSON number printing for the rational values stored in metadata
(terminating decimals are printed exactly; the 17-digit cap mirrors the
precision limit of JavaScript doubles). -/
def decimalString (q : ℚ) : String :=
  let sign := if q < 0 then "-" else ""
  let n := q.num.natAbs
  let d := q.den
  if n % d = 0 then sign ++ toString (n / d)
  else sign ++ toString (n / d) ++ "." ++ fracDigits 17 (n % d) d

/-- JSON string literal (escaping is not modelled; no string handled by the
proofs below contains a quote or a backslash). -/
def jsonString (s : String) : String :=
  "\"" ++ s ++ "\""

/-- JSON array of strings. -/
def jsonStringArray (l : List String) : String :=
  "[" ++ String.intercalate (",") (l.map jsonString) ++ "]"

/-- Serialization of a code reference, in declaration order, omitting absent
optional fields exactly as `JSON.stringify` omits `undefined` values. -/
def serializeCodeReference (c : CodeReference) : String :=
  "\x7b" ++ String.intercalate (",")
    ([jsonString ("filePath") ++ ":" ++ jsonString c.filePath]
      ++ (match c.startLine with
          | some n => [jsonString ("startLine") ++ ":" ++ toString n]
          | none => [])
      ++ (match c.endLine with
          | some n => [jsonString ("endLine") ++ ":" ++ toString n]
          | none => [])
      ++ (match c.functionName with
          | some s => [jsonString ("functionName") ++ ":" ++ jsonString s]
          | none => [])
      ++ (match c.className with
          | some s => [jsonString ("className") ++ ":" ++ jsonString s]
          | none => [])
      ++ [jsonString ("language") ++ ":" ++ jsonString c.language]
      ++ [jsonString ("snippet") ++ ":" ++ jsonString c.snippet]) ++ "\x7d"

/-- Serialization of an extracted entity. -/
def serializeEntity (e : ExtractedEntity) : String :=
  "\x7b" ++ String.intercalate (",")
    [jsonString ("type") ++ ":" ++ jsonString e.type,
     jsonString ("name") ++ ":" ++ jsonString e.name,
     jsonString ("context") ++ ":" ++ jsonString e.context,
     jsonString ("confidence") ++ ":" ++ decimalString e.confidence] ++ "\x7d"

/-- Model of `JSON.stringify(memory.metadata)` as used by the text scorer of
`performTextSearch` (manager.ts line 308). -/
def serializeMetadata (m : MemoryMetadata) : String :=
  "\x7b" ++ String.intercalate (",")
    ([jsonString ("source") ++ ":" ++ jsonString m.source]
      ++ (match m.projectId with
          | some s => [jsonString ("projectId") ++ ":" ++ jsonString s]
          | none => [])
      ++ (match m.sessionId with
          | some s => [jsonString ("sessionId") ++ ":" ++ jsonString s]
          | none => [])
      ++ (match m.userId with
          | some s => [jsonString ("userId") ++ ":" ++ jsonString s]
          | none => [])
      ++ [jsonString ("fileReferences") ++ ":" ++ jsonStringArray m.fileReferences]
      ++ [jsonString ("codeReferences") ++ ":" ++ "["
            ++ String.intercalate (",") (m.codeReferences.map serializeCodeReference) ++ "]"]
      ++ [jsonString ("entities") ++ ":" ++ "["
            ++ String.intercalate (",") (m.entities.map serializeEntity) ++ "]"]
      ++ [jsonString ("summary") ++ ":" ++ jsonString m.summary]
      ++ [jsonString ("keywords") ++ ":" ++ jsonStringArray m.keywords]
      ++ [jsonString ("confidence") ++ ":" ++ decimalString m.confidence]) ++ "\x7d"

/-- Embedding dimension of `SemanticSearch` (`EMBEDDING_DIMENSION = 384`). -/
def embeddingDimension : ℕ := 384

/-- Stop-word list of `SemanticSearch.isStopWord` (semantic-search.ts). -/
def semanticStopWords : List String :=
  ["the", "a", "an", "and", "or", "but", "in", "on", "at", "to", "for", "of", "with", "by",
   "this", "that", "these", "those", "is", "are", "was", "were", "be", "been", "being",
   "have", "has", "had", "do", "does", "did", "will", "would", "could", "should", "may",
   "might", "must", "can", "shall", "it", "its", "they", "them", "their", "we", "us", "our",
   "you", "your", "he", "him", "his", "she", "her", "hers", "me", "my", "mine"]

/-- Model of `SemanticSearch.isStopWord`. -/
def isStopWord (word : String) : Bool :=
  semanticStopWords.contains (jsToLower word)

/-- Curated vocabulary of `SemanticSearch.getVocabulary`. -/
def vocabulary : List String :=
  ["function", "class", "method", "variable", "constant", "array", "object", "string",
   "number", "boolean", "null", "undefined", "true", "false", "if", "else", "for",
   "while", "loop", "condition", "return", "import", "export", "module", "component",
   "react", "vue", "angular", "node", "javascript", "typescript", "python", "java",
   "api", "endpoint", "route", "controller", "service", "model", "view", "database",
   "query", "insert", "update", "delete", "select", "join", "table", "column",
   "authentication", "authorization", "security", "validation", "error", "exception",
   "test", "testing", "unit", "integration", "deployment", "build", "compile",
   "performance", "optimization", "cache", "memory", "storage", "file", "directory",
   "configuration", "environment", "development", "production", "staging", "debug"]

/-- JavaScript `\w` character class (ASCII word characters). -/
def jsWordChar (c : Char) : Bool :=
  c.isAlphanum || c == '_'

/-- Model of `SemanticSearch.tokenize`: lowercase, replace characters that are
neither word characters nor whitespace by a space, split on whitespace, drop
tokens of length at most 2 and stop words. -/
def semanticTokenize (text : String) : List String :=
  (((splitWS (String.mk ((jsToLower text).data.map
      (fun c => if !(jsWordChar c) && !c.isWhitespace then ' ' else c)))).filter
    (fun word => decide (2 < word.length))).filter (fun word => !isStopWord word))

/-- Model of `SemanticSearch.computeWordFrequency`: an insertion-ordered
frequency map, incrementing in place. -/
def computeWordFrequency (words : List String) : List (String × ℕ) :=
  words.foldl (fun freq word => bumpFreq freq word) []
where
  bumpFreq : List (String × ℕ) → String → List (String × ℕ)
    | [], w => [(w, 1)]
    | (k, v) :: rest, w =>
      if k == w then (k, v + 1) :: rest else (k, v) :: bumpFreq rest w

/-- Model of `SemanticSearch.hashWordToDimension`. -/
def hashWordToDimension (word : String) : ℕ :=
  (hashChars word.data).natAbs % embeddingDimension

/-- Model of `SemanticSearch.computeTFIDF`: term frequency times an
inverse-document-frequency proxy (1 for curated-vocabulary words, a logarithm
otherwise). -/
noncomputable def computeTFIDF (word : String) (termFreq totalTerms : ℕ) : ℝ :=
  ((termFreq : ℝ) / (totalTerms : ℝ)) *
    (if vocabulary.contains word then 1 else Real.log (1000 / ((termFreq : ℝ) + 1)))

/-- Sum of squares of a vector, the accumulation
`vector.reduce((sum, val) => sum + val * val, 0)` of `normalizeVector`. -/
def sumSq (vector : List ℝ) : ℝ :=
  vector.foldl (fun sum val => sum + val * val) 0

/-- Model of `SemanticSearch.normalizeVector`: L2-normalize, returning the
vector unchanged when its magnitude is zero. -/
noncomputable def normalizeVector (vector : List ℝ) : List ℝ :=
  let magnitude := Real.sqrt (sumSq vector)
  if magnitude = 0 then vector else vector.map (fun val => val / magnitude)

/-- Model of `SemanticSearch.computeSimpleEmbedding`: hashed bag of words with
TF-IDF weights, additive on hash collision, then L2-normalized. -/
noncomputable def computeSimpleEmbedding (text : String) : List ℝ :=
  let words := semanticTokenize text
  let wordFreq := computeWordFrequency words
  let embedding := wordFreq.foldl
    (fun emb wf =>
      let dimension := hashWordToDimension wf.1
      emb.set dimension (emb.getD dimension 0 + computeTFIDF wf.1 wf.2 words.length))
    (List.replicate embeddingDimension 0)
  normalizeVector embedding

/-- Model of `SemanticSearch.getCacheKey`. -/
def getCacheKey (text : String) : String :=
  toString (hashChars text.data)

/-- Model of `SemanticSearch.generateEmbedding` with its content-hash cache:
returns the cached vector when the key is present, otherwise computes the
embedding and caches it (the error fallback of the source cannot fire in the
model because `computeSimpleEmbedding` is total). -/
noncomputable def generateEmbedding (cache : List (String × List ℝ)) (text : String) :
    List ℝ × List (String × List ℝ) :=
  let cacheKey := getCacheKey text
  match lookupAssoc cache cacheKey with
  | some v => (v, cache)
  | none =>
    let embedding := computeSimpleEmbedding text
    (embedding, cache ++ [(cacheKey, embedding)])

/-- Dot product over the common prefix of two vectors; together with the
length guard of `calculateSimilarity` this models the index loop of the
source, which only runs when the dimensions agree. -/
def dotList (a b : List ℝ) : ℝ :=
  (List.zipWith (fun x y => x * y) a b).sum

/-- Model of `SemanticSearch.calculateSimilarity`: cosine similarity, zero on
dimension mismatch and zero magnitude. -/
noncomputable def calculateSimilarity (embedding1 embedding2 : List ℝ) : ℝ :=
  if embedding1.length ≠ embedding2.length then 0
  else
    let dotProduct := dotList embedding1 embedding2
    let magnitude1 := Real.sqrt (sumSq embedding1)
    let magnitude2 := Real.sqrt (sumSq embedding2)
    if magnitude1 = 0 ∨ magnitude2 = 0 then 0
    else dotProduct / (magnitude1 * magnitude2)

/-- Civil calendar date (year, month, day) from a day count relative to the
Unix epoch, modelling the calendar accessors of the JavaScript `Date` object
(the environment is assumed to run in UTC, so `getFullYear`, `getMonth` and
`getDate` agree with the ISO string used for the day bucket). -/
def civilFromDays (z0 : ℤ) : ℤ × ℤ × ℤ :=
  let z := z0 + 719468
  let era := Int.fdiv z 146097
  let doe := z - era * 146097
  let yoe := (doe - doe / 1460 + doe / 36524 - doe / 146096) / 365
  let y := yoe + era * 400
  let doy := doe - (365 * yoe + yoe / 4 - yoe / 100)
  let mp := (5 * doy + 2) / 153
  let d := doy - (153 * mp + 2) / 5 + 1
  let m := mp + (if mp < 10 then 3 else -9)
  (y + (if m ≤ 2 then 1 else 0), m, d)

/-- Two-digit padding, the model of `String(n).padStart(2, '0')`. -/
def pad2 (n : ℤ) : String :=
  if n < 10 then "0" ++ toString n else toString n

/-- Day-bucket key of `updateIndex`: `toISOString().split('T')[0]`. -/
def dayKeyOf (createdAt : ℤ) : String :=
  let c := civilFromDays (Int.fdiv createdAt 86400000)
  toString c.1 ++ "-" ++ pad2 c.2.1 ++ "-" ++ pad2 c.2.2

/-- Week-bucket key of `updateIndex`: the deliberately crude
`"year-W(ceil(dayOfMonth / 7))"` scheme of the source. -/
def weekKeyOf (createdAt : ℤ) : String :=
  let c := civilFromDays (Int.fdiv createdAt 86400000)
  toString c.1 ++ "-W" ++ toString ((c.2.2 + 6) / 7)

/-- Month-bucket key of `updateIndex`: `"year-(month padded to 2)"`. -/
def monthKeyOf (createdAt : ℤ) : String :=
  let c := civilFromDays (Int.fdiv createdAt 86400000)
  toString c.1 ++ "-" ++ pad2 c.2.1

/-- Append an id to the bucket of `key`, creating the bucket at the end of the
map when absent: the `if (!map.has(key)) map.set(key, []); map.get(key).push(id)`
pattern of `updateIndex` on an insertion-ordered map. -/
def bucketAdd : List (String × List String) → String → String → List (String × List String)
  | [], key, id => [(key, [id])]
  | (k, ids) :: rest, key, id =>
    if k == key then (k, ids ++ [id]) :: rest else (k, ids) :: bucketAdd rest key id

/-- Bucket contents under a key (empty when the bucket does not exist). -/
def lookupBucket (buckets : List (String × List String)) (key : String) : List String :=
  ((buckets.find? (fun b => b.1 == key)).map (fun b => b.2)).getD []

/-- Model of `MemoryManager.initializeIndex`. -/
noncomputable def initializeIndex : MemoryIndex :=
  { byType := [], byTag := [], byProject := [], byEntity := [], byKeyword := []
  , temporal := { byDay := [], byWeek := [], byMonth := [], recent := [] }
  , semantic := { embeddings := [], clusters := [], similarityThreshold := 0.7 } }

/-- Model of `MemoryManager.updateIndex` (manager.ts lines 428-499): file the
entry id under every bucket implied by its fields, push it at the front of the
`recent` list and truncate that list to 100, and record its embedding. -/
def updateIndex (memory : MemoryEntry) (idx : MemoryIndex) : MemoryIndex :=
  let byType := bucketAdd idx.byType memory.type memory.id
  let byTag := memory.tags.foldl (fun b tag => bucketAdd b tag memory.id) idx.byTag
  let byProject :=
    match memory.metadata.projectId with
    | some pid => if pid == "" then idx.byProject else bucketAdd idx.byProject pid memory.id
    | none => idx.byProject
  let byEntity := memory.metadata.entities.foldl
    (fun b entity => bucketAdd b (entity.type ++ ":" ++ entity.name) memory.id) idx.byEntity
  let byKeyword := memory.metadata.keywords.foldl
    (fun b keyword => bucketAdd b keyword memory.id) idx.byKeyword
  let byDay := bucketAdd idx.temporal.byDay (dayKeyOf memory.createdAt) memory.id
  let byWeek := bucketAdd idx.temporal.byWeek (weekKeyOf memory.createdAt) memory.id
  let byMonth := bucketAdd idx.temporal.byMonth (monthKeyOf memory.createdAt) memory.id
  let recent0 := memory.id :: idx.temporal.recent
  let recent := if 100 < recent0.length then recent0.take 100 else recent0
  let embeddings :=
    match memory.embedding with
    | some emb => setAssoc idx.semantic.embeddings memory.id emb
    | none => idx.semantic.embeddings
  { byType := byType, byTag := byTag, byProject := byProject, byEntity := byEntity
  , byKeyword := byKeyword
  , temporal := { byDay := byDay, byWeek := byWeek, byMonth := byMonth, recent := recent }
  , semantic := { idx.semantic with embeddings := embeddings } }

/-- Full index rebuild: discard all indexes, then replay `updateIndex` over
the surviving entries (the rebuild phase of `optimizeMemory`,
manager.ts lines 556-560). -/
noncomputable def rebuildIndex (table : List MemoryEntry) : MemoryIndex :=
  table.foldl (fun idx memory => updateIndex memory idx) initializeIndex

/-- The rebuild phase as a state transformer. -/
noncomputable def rebuildIndexes (st : ManagerState) : ManagerState :=
  { st with index := rebuildIndex st.table }

/-- Eviction test of `optimizeMemory` (manager.ts lines 544-546): importance
below 0.3 and last access older than the cutoff and fewer than 3 accesses. -/
def evictionTest (cutoffDate : ℤ) (memory : MemoryEntry) : Bool :=
  decide (memory.importance < 0.3) && decide (memory.lastAccessed < cutoffDate)
    && decide (memory.accessCount < 3)

/-- Model of `MemoryManager.optimizeMemory` (manager.ts lines 536-566):
remove every entry satisfying the conjunctive eviction test (the cutoff is 30
days before `now`), then rebuild all indexes from the surviving entries.
The persistence deletes are fire-and-forget for the in-memory state. -/
noncomputable def optimizeMemory (now : ℤ) (st : ManagerState) : ManagerState :=
  let cutoffDate := now - 30 * 24 * 60 * 60 * 1000
  let kept := st.table.filter (fun memory => !evictionTest cutoffDate memory)
  { st with table := kept, index := rebuildIndex kept }

/-- Model of `ContextAnalyzer.analyzeContent` (context-analyzer.ts lines
31-50). The five regex/heuristic extractors it runs over the raw content
(`extractEntities`, `extractKeywords`, `extractCodeReferences`,
`generateSummary`, `calculateConfidence`) are taken as inputs, since the
claims under verification concern only the merge of their outputs with the
caller-supplied PartialMemoryMetadata record: caller scalars win (`source` falls back to
`'user-input'` when absent or empty, JavaScript truthiness), caller lists are
concatenated with the extracted ones, and the keyword union is deduplicated
by `[...new Set(...)]`. -/
def analyzeContent (entities : List ExtractedEntity) (keywords : List String)
    (codeReferences : List CodeReference) (summary : String) (confidence : ℚ)
    (existingMetadata : PartialMemoryMetadata) : MemoryMetadata :=
  { source :=
      match existingMetadata.source with
      | some s => if s == "" then "user-input" else s
      | none => "user-input"
  , projectId := existingMetadata.projectId
  , sessionId := existingMetadata.sessionId
  , userId := existingMetadata.userId
  , fileReferences := existingMetadata.fileReferences.getD []
  , codeReferences := existingMetadata.codeReferences.getD [] ++ codeReferences
  , entities := existingMetadata.entities.getD [] ++ entities
  , summary := summary
  , keywords := dedupKeywords (existingMetadata.keywords.getD [] ++ keywords)
  , confidence := confidence }

/-- Model of `MemoryManager.findRelatedMemories` (manager.ts lines 369-401):
a first pass collecting every other entry that shares an
`(entityType, entityName)` pair, a second pass collecting every not-yet
related entry that shares at least two keywords, then truncation to the first
ten ids collected. -/
def findRelatedMemories (memory : MemoryEntry) (table : List MemoryEntry) : List String :=
  let related := table.foldl
    (fun related existingMemory =>
      if existingMemory.id == memory.id then related
      else
        let sharedEntities := memory.metadata.entities.filter (fun entity =>
          existingMemory.metadata.entities.any (fun e =>
            e.name == entity.name && e.type == entity.type))
        if 0 < sharedEntities.length then related ++ [existingMemory.id] else related)
    []
  let related := table.foldl
    (fun related existingMemory =>
      if existingMemory.id == memory.id || related.contains existingMemory.id then related
      else
        let sharedKeywords := memory.metadata.keywords.filter (fun keyword =>
          existingMemory.metadata.keywords.contains keyword)
        if 2 ≤ sharedKeywords.length then related ++ [existingMemory.id] else related)
    related
  related.take 10

/-- Model of `Map.set` on the authoritative table: replace in place when the
id exists, otherwise append. -/
def upsertTable (table : List MemoryEntry) (memory : MemoryEntry) : List MemoryEntry :=
  if table.any (fun e => e.id == memory.id) then
    table.map (fun e => if e.id == memory.id then memory else e)
  else table ++ [memory]

/-- The entry constructed by `MemoryManager.storeMemory` (manager.ts lines
98-139) before it is committed: metadata is the analyzed metadata (the spread
`{defaults, ...analyzedMetadata}` of the source is the analyzed record, since
`analyzeContent` returns every field), the embedding comes from the semantic
engine, `tags` is `analyzedMetadata.keywords || []` (always the keyword list,
a JavaScript array being truthy), and the related ids are computed against
the pre-insertion table. `now` models `Date.now()` and `rid` the random id
suffix. -/
noncomputable def builtMemory (now : ℤ) (rid : String)
    (entities : List ExtractedEntity) (keywords : List String)
    (codeReferences : List CodeReference) (summary : String) (confidence : ℚ)
    (type : String) (content : String) (metadata : PartialMemoryMetadata)
    (importance : ℚ) (st : ManagerState) : MemoryEntry :=
  let memoryId := "memory-" ++ toString now ++ "-" ++ rid
  let analyzedMetadata := analyzeContent entities keywords codeReferences summary confidence metadata
  let ec := generateEmbedding st.cache content
  let memory0 : MemoryEntry :=
    { id := memoryId, type := type, content := content
    , metadata := analyzedMetadata
    , embedding := some ec.1
    , createdAt := now, updatedAt := now, accessCount := 0, lastAccessed := now
    , importance := importance
    , tags := analyzedMetadata.keywords
    , relatedEntries := [] }
  { memory0 with relatedEntries := findRelatedMemories memory0 st.table }

/-- Model of `MemoryManager.storeMemory` (manager.ts lines 98-150): build the
entry, commit it to the table and the index, then attempt the single awaited
persistence write. On persistence failure the in-memory commit is kept and
the error propagates to the caller (`saveMemory` rethrows and `storeMemory`
has no handler); on success the entry is returned. -/
noncomputable def storeMemory (persistOk : Bool) (now : ℤ) (rid : String)
    (entities : List ExtractedEntity) (keywords : List String)
    (codeReferences : List CodeReference) (summary : String) (confidence : ℚ)
    (type : String) (content : String) (metadata : PartialMemoryMetadata)
    (importance : ℚ) (st : ManagerState) : ManagerState × Except Unit MemoryEntry :=
  let memory := builtMemory now rid entities keywords codeReferences summary confidence
    type content metadata importance st
  let ec := generateEmbedding st.cache content
  let st2 : ManagerState :=
    { table := upsertTable st.table memory
    , index := updateIndex memory st.index
    , cache := ec.2 }
  if persistOk then (st2, Except.ok memory) else (st2, Except.error ())

/-- Model of `MemoryManager.getMemory` (manager.ts lines 522-530): a lookup
that bumps the access statistics of the found entry. -/
def getMemory (now : ℤ) (id : String) (st : ManagerState) :
    Option MemoryEntry × ManagerState :=
  match st.table.find? (fun m => m.id == id) with
  | some memory =>
    (some memory,
     { st with table := st.table.map (fun m =>
         if m.id == id then { m with accessCount := m.accessCount + 1, lastAccessed := now }
         else m) })
  | none => (none, st)

/-- Model of `MemoryManager.performTextSearch` (manager.ts lines 302-344):
tokenize the query into terms; per entry, +1 for each term occurring in the
lowercased content (the term is also pushed to the highlights), +0.5 for each
term occurring in the lowercased serialized metadata, +0.8 for each tag
containing some term (the tag is pushed to the highlights); entries with a
positive score are returned with the score normalized by the term count. -/
noncomputable def performTextSearch (text : String) (table : List MemoryEntry) :
    List MemorySearchResult :=
  let searchTerms := splitWS (jsToLower text)
  table.foldl
    (fun results memory =>
      let content := (jsToLower memory.content)
      let metadata := (jsToLower (serializeMetadata memory.metadata))
      let sh : ℝ × List String := searchTerms.foldl
        (fun (sh : ℝ × List String) term =>
          let sh1 := if substrB term content then (sh.1 + 1, sh.2 ++ [term]) else sh
          if substrB term metadata then (sh1.1 + 0.5, sh1.2) else sh1)
        (0, [])
      let sh : ℝ × List String := memory.tags.foldl
        (fun (sh : ℝ × List String) tag =>
          if searchTerms.any (fun term => substrB term (jsToLower tag)) then
            (sh.1 + 0.8, sh.2 ++ [tag])
          else sh)
        sh
      if 0 < sh.1 then
        results ++ [{ entry := memory
                    , score := sh.1 / (searchTerms.length : ℝ)
                    , relevance := sh.1 / (searchTerms.length : ℝ)
                    , matchType := MatchType.exact
                    , highlights := sh.2 }]
      else results)
    []

/-- Model of `MemoryManager.performSemanticSearch` (manager.ts lines 346-367):
entries without an embedding are skipped; the others are kept when their
cosine similarity to the query embedding reaches the configured threshold. -/
noncomputable def performSemanticSearch (queryEmbedding : List ℝ) (threshold : ℝ)
    (table : List MemoryEntry) : List MemorySearchResult :=
  table.foldl
    (fun results memory =>
      match memory.embedding with
      | none => results
      | some emb =>
        let similarity := calculateSimilarity queryEmbedding emb
        if threshold ≤ similarity then
          results ++ [{ entry := memory, score := similarity, relevance := similarity
                      , matchType := MatchType.semantic, highlights := [] }]
        else results)
    []

/-- Model of `MemoryManager.getRelatedMemories` (manager.ts lines 403-426):
walk the related ids of every result, skipping ids already processed (the
processed set starts as the ids of the results themselves), resolving each
remaining id against the table (stale ids resolve to nothing and are
skipped), and emitting a `related` result with the score scaled by 0.7. -/
def getRelatedMemories (results : List MemorySearchResult) (table : List MemoryEntry) :
    List MemorySearchResult :=
  (results.foldl
    (fun s result =>
      result.entry.relatedEntries.foldl
        (fun s relatedId =>
          if s.1.contains relatedId then s
          else
            match table.find? (fun m => m.id == relatedId) with
            | some relatedMemory =>
              (s.1 ++ [relatedId],
               s.2 ++ [{ entry := relatedMemory
                       , score := result.score * 0.7
                       , relevance := result.relevance * 0.7
                       , matchType := MatchType.related
                       , highlights := [] }])
            | none => s)
        s)
    (results.map (fun r => r.entry.id), ([] : List MemorySearchResult))).2

/-- Number of result items referencing the entry with the given id; this is
how the model expresses the aliasing of the in-place
`result.entry.accessCount++` loop of `searchMemories`. -/
def occurrences (id : String) (results : List MemorySearchResult) : ℕ :=
  results.countP (fun r => r.entry.id == id)

/-- The five optional result filters of `searchMemories`
(manager.ts lines 243-273), applied in source order. -/
def applyQueryFilters (query : MemoryQuery) (results : List MemorySearchResult) :
    List MemorySearchResult :=
  let r1 :=
    match query.type with
    | some ty => if ty == "" then results
                 else results.filter (fun (r : MemorySearchResult) => r.entry.type == ty)
    | none => results
  let r2 :=
    match query.tags with
    | some tgs =>
      if tgs.isEmpty then r1
      else r1.filter (fun (r : MemorySearchResult) => tgs.any (fun tag => r.entry.tags.contains tag))
    | none => r1
  let r3 :=
    match query.projectId with
    | some pid =>
      if pid == "" then r2
      else r2.filter (fun (r : MemorySearchResult) => r.entry.metadata.projectId == some pid)
    | none => r2
  let r4 :=
    match query.timeRange with
    | some tr => r3.filter (fun (r : MemorySearchResult) =>
        decide (tr.1 ≤ r.entry.createdAt) && decide (r.entry.createdAt ≤ tr.2))
    | none => r3
  let r5 :=
    match query.minImportance with
    | some mi => r4.filter (fun (r : MemorySearchResult) => decide (mi ≤ r.entry.importance))
    | none => r4
  r5

/-- The sort-by-score-times-importance and result-cap steps of
`searchMemories` (manager.ts lines 275-284); the cap is `maxResults || 20`
(a zero cap is falsy in JavaScript and falls back to 20). -/
noncomputable def rankTruncate (query : MemoryQuery) (results : List MemorySearchResult) :
    List MemorySearchResult :=
  let sorted := results.mergeSort (fun (a b : MemorySearchResult) =>
    decide (b.score * (b.entry.importance : ℝ) ≤ a.score * (a.entry.importance : ℝ)))
  let maxResults :=
    match query.maxResults with
    | some n => if n == 0 then 20 else n
    | none => 20
  sorted.take maxResults

/-- The optional relation expansion of `searchMemories` (manager.ts lines
286-290): related results are appended after the truncation. -/
def expandRelated (query : MemoryQuery) (table : List MemoryEntry)
    (truncated : List MemorySearchResult) : List MemorySearchResult :=
  if query.includeRelated then truncated ++ getRelatedMemories truncated table
  else truncated

/-- The access-statistics update of `searchMemories` (manager.ts lines
292-297): `result.entry` aliases the table entry with the same id, so every
entry is bumped once per result item referencing it. -/
def bumpAccessStats (now : ℤ) (finalResults : List MemorySearchResult)
    (table : List MemoryEntry) : List MemoryEntry :=
  table.map (fun m =>
    let k := occurrences m.id finalResults
    if 0 < k then { m with accessCount := m.accessCount + k, lastAccessed := now } else m)

/-- Model of `MemoryManager.searchMemories` (manager.ts lines 228-300):
collect text matches (when the query text is truthy) and semantic matches
(when additionally requested), apply the five optional filters, sort by
score times importance, truncate to the result cap, optionally append
relation-expansion results, and finally bump the access statistics of every
entry once per result item referencing it. -/
noncomputable def searchMemories (now : ℤ) (query : MemoryQuery) (st : ManagerState) :
    List MemorySearchResult × ManagerState :=
  let textResults :=
    match query.text with
    | some t => if t == "" then [] else performTextSearch t st.table
    | none => []
  let sem :=
    match query.text with
    | some t =>
      if query.semanticSearch && !(t == "") then
        let ec := generateEmbedding st.cache t
        (performSemanticSearch ec.1 st.index.semantic.similarityThreshold st.table, ec.2)
      else ([], st.cache)
    | none => ([], st.cache)
  let results := textResults ++ sem.1
  let finalResults := expandRelated query st.table (rankTruncate query (applyQueryFilters query results))
  (finalResults, { st with table := bumpAccessStats now finalResults st.table, cache := sem.2 })

/-! ### Generic list lemmas -/

theorem take_append_take {α : Type} (x y : List α) :
    ∀ (n m : ℕ), m ≤ n → (x ++ y.take n).take m = (x ++ y).take m := by
  induction x with
  | nil =>
    intro n m hmn
    simp only [List.nil_append, List.take_take]
    rw [Nat.min_eq_left hmn]
  | cons a x ih =>
    intro n m hmn
    cases m with
    | zero => simp
    | succ m0 =>
      simp only [List.cons_append, List.take_succ_cons]
      rw [ih n m0 (Nat.le_of_succ_le hmn)]

theorem countP_le_one_of_nodup {α : Type} (f : α → String) (x : String) (l : List α)
    (h : (l.map f).Nodup) : l.countP (fun a => f a == x) ≤ 1 := by
  have h1 : l.countP (fun a => f a == x) = (l.map f).countP (fun s => s == x) := by
    rw [List.countP_map]
    rfl
  rw [h1, ← List.count_eq_countP]
  exact List.nodup_iff_count_le_one.mp h x

theorem countP_eq_zero_of_forall_ne {α : Type} (p : α → Bool) (l : List α)
    (h : ∀ a ∈ l, ¬p a) : l.countP p = 0 :=
  List.countP_eq_zero.mpr h

/-! ### Sum-of-squares and dot-product lemmas -/

theorem sumSq_foldl_general (l : List ℝ) :
    ∀ a : ℝ, l.foldl (fun sum val => sum + val * val) a = a + sumSq l := by
  induction l with
  | nil => intro a; simp [sumSq]
  | cons x l ih =>
    intro a
    simp only [sumSq, List.foldl_cons] at *
    rw [ih (a + x * x), ih (0 + x * x)]
    ring

theorem sumSq_cons (x : ℝ) (l : List ℝ) : sumSq (x :: l) = x * x + sumSq l := by
  have h1 : sumSq (x :: l) = List.foldl (fun sum val => sum + val * val) (0 + x * x) l := rfl
  rw [h1, sumSq_foldl_general l (0 + x * x)]
  ring

theorem sumSq_append (x y : List ℝ) : sumSq (x ++ y) = sumSq x + sumSq y := by
  induction x with
  | nil => simp [sumSq]
  | cons a x ih => simp only [List.cons_append, sumSq_cons, ih]; ring

theorem sumSq_nonneg (l : List ℝ) : 0 ≤ sumSq l := by
  induction l with
  | nil => simp [sumSq]
  | cons x l ih => rw [sumSq_cons]; nlinarith [mul_self_nonneg x]

theorem sumSq_replicate_zero (n : ℕ) : sumSq (List.replicate n (0 : ℝ)) = 0 := by
  induction n with
  | zero => rfl
  | succ n ih => rw [List.replicate_succ, sumSq_cons, ih]; ring

theorem dotList_cons (x y : ℝ) (a b : List ℝ) :
    dotList (x :: a) (y :: b) = x * y + dotList a b := by
  simp [dotList]

theorem dotList_self (v : List ℝ) : dotList v v = sumSq v := by
  induction v with
  | nil => rfl
  | cons x v ih => rw [dotList_cons, ih, sumSq_cons]

/-- Cauchy-Schwarz for the truncating dot product. -/
theorem dotList_sq_le (a : List ℝ) : ∀ b : List ℝ, dotList a b ^ 2 ≤ sumSq a * sumSq b := by
  induction a with
  | nil =>
    intro b
    have : dotList [] b = 0 := rfl
    rw [this]
    have : sumSq ([] : List ℝ) = 0 := rfl
    rw [this]
    simp
  | cons x a ih =>
    intro b
    cases b with
    | nil =>
      have h0 : dotList (x :: a) [] = 0 := by simp [dotList]
      have h1 : sumSq ([] : List ℝ) = 0 := rfl
      rw [h0, h1]
      simp
    | cons y b =>
      have h := ih b
      have ha := sumSq_nonneg a
      have hb := sumSq_nonneg b
      rw [dotList_cons, sumSq_cons, sumSq_cons]
      rcases lt_or_eq_of_le hb with hbpos | hbzero
      · nlinarith [sq_nonneg (sumSq b * x - y * dotList a b),
          mul_nonneg (add_nonneg (mul_self_nonneg y) hb) (sub_nonneg.mpr h)]
      · have hd : dotList a b = 0 := by
          have h2 : dotList a b ^ 2 ≤ 0 := by nlinarith
          have h3 : 0 ≤ dotList a b ^ 2 := sq_nonneg _
          nlinarith
        rw [hd, ← hbzero]
        nlinarith [mul_self_nonneg y, mul_self_nonneg x, mul_nonneg ha (mul_self_nonneg y)]

/-! ### Similarity lemmas -/

theorem calculateSimilarity_of_len_ne (a b : List ℝ) (h : a.length ≠ b.length) :
    calculateSimilarity a b = 0 := by
  simp [calculateSimilarity, h]

/-- Cosine similarity of a vector with itself is 1 whenever the vector has
nonzero magnitude. -/
theorem calculateSimilarity_self (v : List ℝ) (h : sumSq v ≠ 0) :
    calculateSimilarity v v = 1 := by
  have hpos : 0 < sumSq v := lt_of_le_of_ne (sumSq_nonneg v) (Ne.symm h)
  have hs : Real.sqrt (sumSq v) ≠ 0 := Real.sqrt_ne_zero'.mpr hpos
  simp only [calculateSimilarity, ne_eq, not_true_eq_false, if_false, ite_not]
  rw [if_neg (by push_neg; exact ⟨hs, hs⟩)]
  rw [dotList_self, Real.mul_self_sqrt (sumSq_nonneg v)]
  exact div_self h

/-- Claim C6: for all vector inputs `a` and `b`, `calculateSimilarity a b`
lies in `[-1, 1]`; it is exactly 0 whenever the dimensions differ or either
vector has zero magnitude (zero magnitude being `sumSq = 0`, since the
magnitude is the square root of the sum of squares); totality of the Lean
function models the never-raises contract of the source. -/
theorem calculateSimilarity_bounds :
    ∀ a b : List ℝ,
      (-1 ≤ calculateSimilarity a b ∧ calculateSimilarity a b ≤ 1)
      ∧ (a.length ≠ b.length → calculateSimilarity a b = 0)
      ∧ (sumSq a = 0 ∨ sumSq b = 0 → calculateSimilarity a b = 0) := by
  intro a b
  by_cases hlen : a.length ≠ b.length
  · rw [calculateSimilarity_of_len_ne a b hlen]
    exact ⟨by norm_num, fun _ => rfl, fun _ => rfl⟩
  · by_cases hm : Real.sqrt (sumSq a) = 0 ∨ Real.sqrt (sumSq b) = 0
    · have h0 : calculateSimilarity a b = 0 := by
        simp only [calculateSimilarity, hlen, if_false]
        rw [if_pos hm]
      rw [h0]
      exact ⟨⟨by norm_num, by norm_num⟩, fun _ => rfl, fun _ => rfl⟩
    · push_neg at hm
      have ha0 : 0 < sumSq a := Real.sqrt_ne_zero'.mp hm.1
      have hb0 : 0 < sumSq b := Real.sqrt_ne_zero'.mp hm.2
      have hval : calculateSimilarity a b =
          dotList a b / (Real.sqrt (sumSq a) * Real.sqrt (sumSq b)) := by
        simp only [calculateSimilarity, hlen, if_false]
        rw [if_neg (by push_neg; exact hm)]
      have hD : 0 < Real.sqrt (sumSq a) * Real.sqrt (sumSq b) :=
        mul_pos (Real.sqrt_pos.mpr ha0) (Real.sqrt_pos.mpr hb0)
      have hD2 : (Real.sqrt (sumSq a) * Real.sqrt (sumSq b)) ^ 2 = sumSq a * sumSq b := by
        rw [mul_pow, Real.sq_sqrt (sumSq_nonneg a), Real.sq_sqrt (sumSq_nonneg b)]
      have hcs : dotList a b ^ 2 ≤ (Real.sqrt (sumSq a) * Real.sqrt (sumSq b)) ^ 2 := by
        rw [hD2]
        exact dotList_sq_le a b
      have habs := abs_le_of_sq_le_sq' hcs (le_of_lt hD)
      constructor
      · constructor
        · rw [hval]
          rw [le_div_iff₀ hD]
          linarith [habs.1]
        · rw [hval]
          rw [div_le_one hD]
          exact habs.2
      · constructor
        · intro h
          exact absurd h hlen
        · intro h
          rcases h with h | h
          · exact absurd h (ne_of_gt ha0)
          · exact absurd h (ne_of_gt hb0)

/-- Witness for C6: applying the theorem at the concrete mismatching vectors
`[1]` and `[1, 0]` discharges the dimension-mismatch hypothesis and yields
similarity 0 together with the bounds. -/
theorem calculateSimilarity_bounds_witness :
    calculateSimilarity [(1 : ℝ)] [1, 0] = 0 ∧
      -1 ≤ calculateSimilarity [(1 : ℝ)] [1, 0] ∧ calculateSimilarity [(1 : ℝ)] [1, 0] ≤ 1 :=
  ⟨(calculateSimilarity_bounds [(1 : ℝ)] [1, 0]).2.1 (by simp),
   (calculateSimilarity_bounds [(1 : ℝ)] [1, 0]).1⟩

/-! ### Eviction policy -/

theorem evictionTest_iff (cutoffDate : ℤ) (memory : MemoryEntry) :
    evictionTest cutoffDate memory = true ↔
      (memory.importance < 0.3 ∧ memory.lastAccessed < cutoffDate ∧ memory.accessCount < 3) := by
  simp [evictionTest, Bool.and_eq_true, and_assoc]

/-- Claim C1: an entry of the authoritative table is removed by
`optimizeMemory` iff its importance is below 0.3 AND its last access is older
than the 30-days-ago cutoff AND its access count is below 3; consequently the
entry is retained whenever any single condition fails. -/
theorem optimizeMemory_removes_iff (now : ℤ) (st : ManagerState) (memory : MemoryEntry)
    (h : memory ∈ st.table) :
    (memory ∉ (optimizeMemory now st).table ↔
      (memory.importance < 0.3
        ∧ memory.lastAccessed < now - 30 * 24 * 60 * 60 * 1000
        ∧ memory.accessCount < 3)) := by
  have hmem : memory ∈ (optimizeMemory now st).table ↔
      ¬evictionTest (now - 30 * 24 * 60 * 60 * 1000) memory = true := by
    simp [optimizeMemory, List.mem_filter, h]
  rw [← evictionTest_iff (now - 30 * 24 * 60 * 60 * 1000) memory, hmem]
  exact not_not

/-- Concrete witness entry for C1: importance 0.1, last accessed at epoch,
never accessed. -/
def evictionWitnessEntry : MemoryEntry :=
  { id := "w", type := "conversation", content := ""
  , metadata :=
    { source := "chat", projectId := none, sessionId := none, userId := none
    , fileReferences := [], codeReferences := [], entities := []
    , summary := "", keywords := [], confidence := 1 }
  , embedding := none
  , createdAt := 0, updatedAt := 0, accessCount := 0, lastAccessed := 0
  , importance := 0.1, tags := [], relatedEntries := [] }

/-- Witness for C1: at time 10^10 ms the witness entry satisfies all three
eviction conditions and is removed. -/
theorem optimizeMemory_removes_iff_witness :
    evictionWitnessEntry ∉
      (optimizeMemory 10000000000
        { table := [evictionWitnessEntry], index := initializeIndex, cache := [] }).table :=
  (optimizeMemory_removes_iff 10000000000
      { table := [evictionWitnessEntry], index := initializeIndex, cache := [] }
      evictionWitnessEntry (by simp)).mpr
    ⟨by norm_num [evictionWitnessEntry], by norm_num [evictionWitnessEntry],
     by norm_num [evictionWitnessEntry]⟩

/-! ### Rebuild idempotence -/

/-- Claim C3: rebuilding all secondary indexes from the authoritative table
(discard everything, then replay `updateIndex` over all surviving entries) is
idempotent: a second rebuild yields bucket-for-bucket identical indexes —
every bucket key of every index family has the same contents, the recent list
agrees, and the semantic embedding map agrees. -/
theorem rebuildIndexes_idempotent (st : ManagerState) :
    (∀ key, lookupBucket (rebuildIndexes (rebuildIndexes st)).index.byType key
        = lookupBucket (rebuildIndexes st).index.byType key)
    ∧ (∀ key, lookupBucket (rebuildIndexes (rebuildIndexes st)).index.byTag key
        = lookupBucket (rebuildIndexes st).index.byTag key)
    ∧ (∀ key, lookupBucket (rebuildIndexes (rebuildIndexes st)).index.byProject key
        = lookupBucket (rebuildIndexes st).index.byProject key)
    ∧ (∀ key, lookupBucket (rebuildIndexes (rebuildIndexes st)).index.byEntity key
        = lookupBucket (rebuildIndexes st).index.byEntity key)
    ∧ (∀ key, lookupBucket (rebuildIndexes (rebuildIndexes st)).index.byKeyword key
        = lookupBucket (rebuildIndexes st).index.byKeyword key)
    ∧ (∀ key, lookupBucket (rebuildIndexes (rebuildIndexes st)).index.temporal.byDay key
        = lookupBucket (rebuildIndexes st).index.temporal.byDay key)
    ∧ (∀ key, lookupBucket (rebuildIndexes (rebuildIndexes st)).index.temporal.byWeek key
        = lookupBucket (rebuildIndexes st).index.temporal.byWeek key)
    ∧ (∀ key, lookupBucket (rebuildIndexes (rebuildIndexes st)).index.temporal.byMonth key
        = lookupBucket (rebuildIndexes st).index.temporal.byMonth key)
    ∧ (rebuildIndexes (rebuildIndexes st)).index.temporal.recent
        = (rebuildIndexes st).index.temporal.recent
    ∧ (rebuildIndexes (rebuildIndexes st)).index.semantic.embeddings
        = (rebuildIndexes st).index.semantic.embeddings :=
  ⟨fun _ => rfl, fun _ => rfl, fun _ => rfl, fun _ => rfl, fun _ => rfl,
   fun _ => rfl, fun _ => rfl, fun _ => rfl, rfl, rfl⟩

/-! ### Store and persistence failure -/

theorem mem_upsertTable (table : List MemoryEntry) (memory : MemoryEntry) :
    memory ∈ upsertTable table memory := by
  unfold upsertTable
  by_cases h : table.any (fun e => e.id == memory.id)
  · rw [if_pos h]
    rcases List.any_eq_true.mp h with ⟨e, he, hid⟩
    exact List.mem_map.mpr ⟨e, he, by rw [if_pos hid]⟩
  · rw [if_neg h]
    exact List.mem_append_right _ (List.mem_singleton.mpr rfl)

/-- Claim C7: when the persistence write fails, `storeMemory` keeps the
in-memory commit — the newly built entry is present in the authoritative
table and the index has been updated with it — and propagates the error to
the caller instead of swallowing it. The single `persistOk` parameter models
the one awaited persistence attempt of the source; no retry exists. -/
theorem storeMemory_persist_failure (now : ℤ) (rid : String)
    (entities : List ExtractedEntity) (keywords : List String)
    (codeReferences : List CodeReference) (summary : String) (confidence : ℚ)
    (type : String) (content : String) (metadata : PartialMemoryMetadata)
    (importance : ℚ) (st : ManagerState) :
    (storeMemory false now rid entities keywords codeReferences summary confidence
        type content metadata importance st).2 = Except.error ()
    ∧ builtMemory now rid entities keywords codeReferences summary confidence
        type content metadata importance st
      ∈ (storeMemory false now rid entities keywords codeReferences summary confidence
          type content metadata importance st).1.table
    ∧ (storeMemory false now rid entities keywords codeReferences summary confidence
        type content metadata importance st).1.index
      = updateIndex (builtMemory now rid entities keywords codeReferences summary confidence
          type content metadata importance st) st.index :=
  ⟨rfl, mem_upsertTable st.table _, rfl⟩

/-! ### Embedding determinism -/

theorem lookupAssoc_append_of_none (c : List (String × List ℝ)) (k : String) (v : List ℝ)
    (h : lookupAssoc c k = none) : lookupAssoc (c ++ [(k, v)]) k = some v := by
  induction c with
  | nil => simp [lookupAssoc]
  | cons p c ih =>
    rcases p with ⟨k0, v0⟩
    by_cases hp : k0 == k
    · rw [lookupAssoc, if_pos hp] at h
      exact absurd h (by simp)
    · rw [List.cons_append, lookupAssoc, if_neg hp]
      rw [lookupAssoc, if_neg hp] at h
      exact ih h

/-- Claim C9: `generateEmbedding` is deterministic — a second call on the
identical text (against the cache state left by the first call) returns the
bit-identical vector: the first call caches the computed vector under the
content-hash key, and the second call retrieves exactly it. -/
theorem generateEmbedding_deterministic (cache : List (String × List ℝ)) (text : String) :
    (generateEmbedding (generateEmbedding cache text).2 text).1
      = (generateEmbedding cache text).1 := by
  unfold generateEmbedding
  cases h : lookupAssoc cache (getCacheKey text) with
  | some v => simp [h]
  | none => simp [h, lookupAssoc_append_of_none cache _ _ h]

/-! ### Tags versus keywords -/

/-- Claim C10: the entry created through the store ingestion path has its
`tags` list identical to its `metadata.keywords` list — the merged,
deduplicated keyword list produced by the enrichment merge — and therefore
`updateIndex` files its id under exactly the same key set in the byTag and
byKeyword indexes. -/
theorem storeMemory_tags_eq_keywords (now : ℤ) (rid : String)
    (entities : List ExtractedEntity) (keywords : List String)
    (codeReferences : List CodeReference) (summary : String) (confidence : ℚ)
    (type : String) (content : String) (metadata : PartialMemoryMetadata)
    (importance : ℚ) (st : ManagerState) :
    (builtMemory now rid entities keywords codeReferences summary confidence
        type content metadata importance st).tags
      = (builtMemory now rid entities keywords codeReferences summary confidence
          type content metadata importance st).metadata.keywords
    ∧ (builtMemory now rid entities keywords codeReferences summary confidence
        type content metadata importance st).metadata.keywords
      = dedupKeywords (metadata.keywords.getD [] ++ keywords)
    ∧ ∀ key,
        ((builtMemory now rid entities keywords codeReferences summary confidence
            type content metadata importance st).id
          ∈ lookupBucket (updateIndex (builtMemory now rid entities keywords codeReferences
              summary confidence type content metadata importance st) initializeIndex).byTag key
        ↔ (builtMemory now rid entities keywords codeReferences summary confidence
            type content metadata importance st).id
          ∈ lookupBucket (updateIndex (builtMemory now rid entities keywords codeReferences
              summary confidence type content metadata importance st) initializeIndex).byKeyword key) :=
  ⟨rfl, rfl, fun _ => Iff.rfl⟩

/-! ### Recent list -/

theorem updateIndex_recent (memory : MemoryEntry) (idx : MemoryIndex) :
    (updateIndex memory idx).temporal.recent
      = (memory.id :: idx.temporal.recent).take 100 := by
  simp only [updateIndex]
  by_cases h : 100 < (memory.id :: idx.temporal.recent).length
  · rw [if_pos h]
  · rw [if_neg h]
    exact (List.take_of_length_le (Nat.le_of_not_lt h)).symm

theorem foldl_updateIndex_recent (entries : List MemoryEntry) :
    ∀ idx : MemoryIndex, idx.temporal.recent.length ≤ 100 →
      (entries.foldl (fun i m => updateIndex m i) idx).temporal.recent
        = ((entries.map (fun m => m.id)).reverse ++ idx.temporal.recent).take 100 := by
  induction entries with
  | nil =>
    intro idx h
    simp [List.take_of_length_le h]
  | cons e entries ih =>
    intro idx h
    have hlen : (updateIndex e idx).temporal.recent.length ≤ 100 := by
      rw [updateIndex_recent]
      simp [List.length_take]
    rw [List.foldl_cons, ih (updateIndex e idx) hlen, updateIndex_recent]
    rw [take_append_take _ _ 100 100 (le_refl 100)]
    simp [List.map_cons, List.reverse_cons, List.append_assoc]

/-- Claim C8: after any sequence of insertions into a fresh index, the
"recent" list equals the first 100 ids of the reversed insertion order —
newest-inserted first, at most 100 ids — and neither `getMemory` lookups nor
`searchMemories` query-result access updates ever change the index (and so
never change the recent list). -/
theorem recentIndex_bounded_newest_first :
    (∀ entries : List MemoryEntry,
        (entries.foldl (fun idx m => updateIndex m idx) initializeIndex).temporal.recent
          = ((entries.map (fun m => m.id)).reverse).take 100
        ∧ ((entries.foldl (fun idx m => updateIndex m idx) initializeIndex).temporal.recent).length
            ≤ 100)
    ∧ (∀ (now : ℤ) (query : MemoryQuery) (st : ManagerState),
        ((searchMemories now query st).2).index = st.index)
    ∧ (∀ (now : ℤ) (id : String) (st : ManagerState),
        ((getMemory now id st).2).index = st.index) := by
  refine ⟨?_, ?_, ?_⟩
  · intro entries
    have h := foldl_updateIndex_recent entries initializeIndex (by simp [initializeIndex])
    have h0 : initializeIndex.temporal.recent = [] := rfl
    rw [h0, List.append_nil] at h
    refine ⟨h, ?_⟩
    rw [h]
    simp [List.length_take]
  · intro now query st
    rfl
  · intro now id st
    unfold getMemory
    cases h : st.table.find? (fun m => m.id == id) with
    | some memory => simp
    | none => simp

/-! ### Text scoring -/

/-- Declarative raw text score (before normalization): +1 per term occurring
in the lowercased content, +0.5 per term occurring in the lowercased
serialized metadata, +0.8 per tag containing at least one term. -/
noncomputable def textRawScore (searchTerms : List String) (memory : MemoryEntry) : ℝ :=
  ((searchTerms.countP (fun term => substrB term (jsToLower memory.content)) : ℕ) : ℝ)
    + 0.5 * ((searchTerms.countP
        (fun term => substrB term (jsToLower (serializeMetadata memory.metadata))) : ℕ) : ℝ)
    + 0.8 * ((memory.tags.countP
        (fun tag => searchTerms.any (fun term => substrB term (jsToLower tag))) : ℕ) : ℝ)

/-- Declarative highlights: the content-matching terms in term order followed
by the matching tags in tag order. -/
def textHighlights (searchTerms : List String) (memory : MemoryEntry) : List String :=
  searchTerms.filter (fun term => substrB term (jsToLower memory.content))
    ++ memory.tags.filter (fun tag => searchTerms.any (fun term => substrB term (jsToLower tag)))

theorem textSearch_terms_foldl (content meta : String) (terms : List String) :
    ∀ (s : ℝ) (hl : List String),
      terms.foldl
        (fun (sh : ℝ × List String) term =>
          let sh1 := if substrB term content then (sh.1 + 1, sh.2 ++ [term]) else sh
          if substrB term meta then (sh1.1 + 0.5, sh1.2) else sh1)
        (s, hl)
      = (s + ((terms.countP (fun t => substrB t content) : ℕ) : ℝ)
            + 0.5 * ((terms.countP (fun t => substrB t meta) : ℕ) : ℝ),
         hl ++ terms.filter (fun t => substrB t content)) := by
  induction terms with
  | nil => intro s hl; simp
  | cons t terms ih =>
    intro s hl
    by_cases h1 : substrB t content <;> by_cases h2 : substrB t meta <;>
      simp only [List.foldl_cons, List.countP_cons, List.filter_cons, h1, h2, if_pos, if_neg,
        Bool.false_eq_true, ite_true, ite_false, ih] <;>
      refine Prod.ext ?_ ?_ <;> simp <;> push_cast <;> ring

theorem textSearch_tags_foldl (terms : List String) (tags : List String) :
    ∀ (s : ℝ) (hl : List String),
      tags.foldl
        (fun (sh : ℝ × List String) tag =>
          if terms.any (fun term => substrB term (jsToLower tag)) then
            (sh.1 + 0.8, sh.2 ++ [tag])
          else sh)
        (s, hl)
      = (s + 0.8 * ((tags.countP (fun tag => terms.any (fun term => substrB term (jsToLower tag))) : ℕ) : ℝ),
         hl ++ tags.filter (fun tag => terms.any (fun term => substrB term (jsToLower tag)))) := by
  induction tags with
  | nil => intro s hl; simp
  | cons tg tags ih =>
    intro s hl
    by_cases h2 : terms.any (fun term => substrB term (jsToLower tg)) <;>
      simp only [List.foldl_cons, List.countP_cons, List.filter_cons, h2, Bool.false_eq_true,
        ite_true, ite_false, ih] <;>
      refine Prod.ext ?_ ?_ <;> simp <;> push_cast <;> ring

/-- The per-entry step of `performTextSearch`, extracted for reasoning; it is
definitionally the fold body of `performTextSearch`. -/
noncomputable def textBody (text : String) (results : List MemorySearchResult)
    (memory : MemoryEntry) : List MemorySearchResult :=
  let searchTerms := splitWS (jsToLower text)
  let content := (jsToLower memory.content)
  let metadata := (jsToLower (serializeMetadata memory.metadata))
  let sh : ℝ × List String := searchTerms.foldl
    (fun (sh : ℝ × List String) term =>
      let sh1 := if substrB term content then (sh.1 + 1, sh.2 ++ [term]) else sh
      if substrB term metadata then (sh1.1 + 0.5, sh1.2) else sh1)
    (0, [])
  let sh : ℝ × List String := memory.tags.foldl
    (fun (sh : ℝ × List String) tag =>
      if searchTerms.any (fun term => substrB term (jsToLower tag)) then
        (sh.1 + 0.8, sh.2 ++ [tag])
      else sh)
    sh
  if 0 < sh.1 then
    results ++ [{ entry := memory
                , score := sh.1 / (searchTerms.length : ℝ)
                , relevance := sh.1 / (searchTerms.length : ℝ)
                , matchType := MatchType.exact
                , highlights := sh.2 }]
  else results

theorem performTextSearch_eq_foldl (text : String) (table : List MemoryEntry) :
    performTextSearch text table = List.foldl (textBody text) [] table := rfl

/-- The search result that `performTextSearch` emits for a matching entry. -/
noncomputable def textResult (text : String) (memory : MemoryEntry) : MemorySearchResult :=
  { entry := memory
  , score := textRawScore (splitWS (jsToLower text)) memory / ((splitWS (jsToLower text)).length : ℝ)
  , relevance := textRawScore (splitWS (jsToLower text)) memory / ((splitWS (jsToLower text)).length : ℝ)
  , matchType := MatchType.exact
  , highlights := textHighlights (splitWS (jsToLower text)) memory }

theorem textBody_eq (text : String) (acc : List MemorySearchResult) (memory : MemoryEntry) :
    textBody text acc memory
      = acc ++ (if 0 < textRawScore (splitWS (jsToLower text)) memory
                then [textResult text memory] else []) := by
  simp only [textBody]
  rw [textSearch_terms_foldl, textSearch_tags_foldl]
  have he : (0 : ℝ)
        + (((splitWS (jsToLower text)).countP
            (fun t => substrB t (jsToLower memory.content)) : ℕ) : ℝ)
        + 0.5 * (((splitWS (jsToLower text)).countP
            (fun t => substrB t (jsToLower (serializeMetadata memory.metadata))) : ℕ) : ℝ)
        + 0.8 * ((memory.tags.countP
            (fun tag => (splitWS (jsToLower text)).any (fun term => substrB term (jsToLower tag))) : ℕ) : ℝ)
      = textRawScore (splitWS (jsToLower text)) memory := by
    unfold textRawScore
    ring
  simp only [he]
  by_cases hp : 0 < textRawScore (splitWS (jsToLower text)) memory
  · rw [if_pos hp, if_pos hp]
    simp [textResult, textHighlights]
  · rw [if_neg hp, if_neg hp]
    simp

theorem performTextSearch_foldl_general (text : String) (table : List MemoryEntry) :
    ∀ acc : List MemorySearchResult,
      List.foldl (textBody text) acc table
        = acc ++ (table.filter
            (fun m => decide (0 < textRawScore (splitWS (jsToLower text)) m))).map
              (textResult text) := by
  induction table with
  | nil => intro acc; simp
  | cons m table ih =>
    intro acc
    rw [List.foldl_cons, ih (textBody text acc m), textBody_eq]
    rw [List.filter_cons]
    by_cases hp : 0 < textRawScore (splitWS (jsToLower text)) m
    · rw [if_pos hp, if_pos (by simpa using hp)]
      simp
    · rw [if_neg hp, if_neg (by simpa using hp)]
      simp

/-- Characterization of the text scorer, shared by the proofs below. -/
theorem performTextSearch_characterization (text : String) (table : List MemoryEntry) :
    performTextSearch text table
      = (table.filter (fun m => decide (0 < textRawScore (splitWS (jsToLower text)) m))).map
          (textResult text) := by
  rw [performTextSearch_eq_foldl, performTextSearch_foldl_general]
  simp

/-- Claim C4: `performTextSearch` returns exactly the entries whose raw text
score is positive (entries scoring 0 are excluded), each carried with the
score `(+1 per content-matching term, +0.5 per metadata-matching term, +0.8
per tag containing some term) / (number of terms)`, matched as `exact` with
the matching terms and tags as highlights. -/
theorem performTextSearch_scoring_spec (text : String) (table : List MemoryEntry) :
    performTextSearch text table
      = (table.filter (fun m => decide (0 < textRawScore (splitWS (jsToLower text)) m))).map
          (textResult text) :=
  performTextSearch_characterization text table

/-! ### Relation finder -/

/-- First pass of the relation finder, declaratively: every other entry
sharing at least one `(entityType, entityName)` pair, in scan order. -/
def relatedPassOne (memory : MemoryEntry) (table : List MemoryEntry) : List String :=
  (table.filter (fun existing =>
    !(existing.id == memory.id)
      && memory.metadata.entities.any (fun entity =>
           existing.metadata.entities.any (fun e =>
             e.name == entity.name && e.type == entity.type)))).map (fun e => e.id)

/-- Second pass, declaratively: every entry not related by the first pass
that shares at least 2 keywords (counted over the new entry's keyword list),
in scan order. -/
def relatedPassTwo (memory : MemoryEntry) (table : List MemoryEntry) : List String :=
  (table.filter (fun existing =>
    !(existing.id == memory.id)
      && !((relatedPassOne memory table).contains existing.id)
      && decide (2 ≤ (memory.metadata.keywords.filter
           (fun keyword => existing.metadata.keywords.contains keyword)).length))).map
    (fun e => e.id)

/-- The first-pass step of `findRelatedMemories`, extracted. -/
def relBodyOne (memory : MemoryEntry) (related : List String) (existingMemory : MemoryEntry) :
    List String :=
  if existingMemory.id == memory.id then related
  else
    let sharedEntities := memory.metadata.entities.filter (fun entity =>
      existingMemory.metadata.entities.any (fun e =>
        e.name == entity.name && e.type == entity.type))
    if 0 < sharedEntities.length then related ++ [existingMemory.id] else related

/-- The second-pass step of `findRelatedMemories`, extracted. -/
def relBodyTwo (memory : MemoryEntry) (related : List String) (existingMemory : MemoryEntry) :
    List String :=
  if existingMemory.id == memory.id || related.contains existingMemory.id then related
  else
    let sharedKeywords := memory.metadata.keywords.filter (fun keyword =>
      existingMemory.metadata.keywords.contains keyword)
    if 2 ≤ sharedKeywords.length then related ++ [existingMemory.id] else related

theorem findRelatedMemories_eq_foldl (memory : MemoryEntry) (table : List MemoryEntry) :
    findRelatedMemories memory table
      = (table.foldl (relBodyTwo memory) (table.foldl (relBodyOne memory) [])).take 10 := rfl

theorem relPassOne_foldl (memory : MemoryEntry) (table : List MemoryEntry) :
    ∀ acc : List String,
      table.foldl (relBodyOne memory) acc = acc ++ relatedPassOne memory table := by
  induction table with
  | nil => intro acc; simp [relatedPassOne]
  | cons e table ih =>
    intro acc
    rw [List.foldl_cons, ih (relBodyOne memory acc e)]
    by_cases hid : e.id == memory.id
    · simp [relBodyOne, relatedPassOne, hid, List.filter_cons]
    · by_cases hs : memory.metadata.entities.any (fun entity =>
          e.metadata.entities.any (fun en => en.name == entity.name && en.type == entity.type))
      · have hlen : 0 < (memory.metadata.entities.filter (fun entity =>
            e.metadata.entities.any (fun en =>
              en.name == entity.name && en.type == entity.type))).length := by
          rw [← List.countP_eq_length_filter, List.countP_pos_iff]
          simpa using List.any_eq_true.mp hs
        simp [relBodyOne, relatedPassOne, hid, hs, hlen, List.filter_cons]
      · have hlen : ¬ 0 < (memory.metadata.entities.filter (fun entity =>
            e.metadata.entities.any (fun en =>
              en.name == entity.name && en.type == entity.type))).length := by
          rw [← List.countP_eq_length_filter, List.countP_pos_iff]
          intro hcon
          rcases hcon with ⟨a, ha, hpa⟩
          exact hs (List.any_eq_true.mpr ⟨a, ha, hpa⟩)
        simp [relBodyOne, relatedPassOne, hid, hs, hlen, List.filter_cons]

theorem relPassTwo_foldl (memory : MemoryEntry) (base : List String) :
    ∀ (suffix : List MemoryEntry) (pushed : List String),
      (suffix.map (fun e => e.id)).Nodup →
      (∀ i ∈ pushed, i ∉ suffix.map (fun e => e.id)) →
      suffix.foldl (relBodyTwo memory) (base ++ pushed)
        = base ++ pushed ++ (suffix.filter (fun existing =>
            !(existing.id == memory.id)
              && !(base.contains existing.id)
              && decide (2 ≤ (memory.metadata.keywords.filter
                   (fun keyword => existing.metadata.keywords.contains keyword)).length))).map
            (fun e => e.id) := by
  intro suffix
  induction suffix with
  | nil => intro pushed _ _; simp
  | cons e suffix ih =>
    intro pushed hnd hdisj
    have heid : e.id ∉ pushed := fun hin => hdisj e.id hin (by simp)
    have hcontains : (base ++ pushed).contains e.id = base.contains e.id := by
      simp [heid]
    have hnd2 : (e.id :: suffix.map (fun e => e.id)).Nodup := by simpa using hnd
    have hnd' : (suffix.map (fun e => e.id)).Nodup := (List.nodup_cons.mp hnd2).2
    have heidsfx : e.id ∉ suffix.map (fun e => e.id) := (List.nodup_cons.mp hnd2).1
    rw [List.foldl_cons, List.filter_cons]
    by_cases hid : e.id == memory.id
    · have hb : relBodyTwo memory (base ++ pushed) e = base ++ pushed := by
        unfold relBodyTwo
        rw [if_pos]
        rw [hid]
        simp
      rw [hb, ih pushed hnd' (fun i hi hm => hdisj i hi (List.mem_cons_of_mem _ hm))]
      have hpred : (!(e.id == memory.id)
          && !(base.contains e.id)
          && decide (2 ≤ (memory.metadata.keywords.filter
               (fun keyword => e.metadata.keywords.contains keyword)).length)) = false := by
        rw [hid]
        simp
      rw [hpred]
      simp
    · by_cases hbc : base.contains e.id
      · have hb : relBodyTwo memory (base ++ pushed) e = base ++ pushed := by
          unfold relBodyTwo
          rw [if_pos]
          rw [hcontains, hbc]
          simp
        rw [hb, ih pushed hnd' (fun i hi hm => hdisj i hi (List.mem_cons_of_mem _ hm))]
        have hpred : (!(e.id == memory.id)
            && !(base.contains e.id)
            && decide (2 ≤ (memory.metadata.keywords.filter
                 (fun keyword => e.metadata.keywords.contains keyword)).length)) = false := by
          rw [hbc]
          simp
        rw [hpred]
        simp
      · have hid2 : e.id ≠ memory.id := by simpa using hid
        have hbc2 : e.id ∉ base := by simpa using hbc
        have hskip : (e.id == memory.id || (base ++ pushed).contains e.id) = false := by
          rw [hcontains]
          simp [hid2, hbc2]
        by_cases hkw : 2 ≤ (memory.metadata.keywords.filter
            (fun keyword => e.metadata.keywords.contains keyword)).length
        · have hb : relBodyTwo memory (base ++ pushed) e = base ++ (pushed ++ [e.id]) := by
            unfold relBodyTwo
            rw [if_neg (by rw [hskip]; simp)]
            rw [if_pos hkw]
            simp
          have hdisj' : ∀ i ∈ pushed ++ [e.id], i ∉ suffix.map (fun e => e.id) := by
            intro i hi
            rcases List.mem_append.mp hi with hi | hi
            · exact fun hm => hdisj i hi (List.mem_cons_of_mem _ hm)
            · rw [List.mem_singleton.mp hi]
              exact heidsfx
          rw [hb, ih (pushed ++ [e.id]) hnd' hdisj']
          have hkw2 : 2 ≤ (List.filter (fun keyword =>
              decide (keyword ∈ e.metadata.keywords)) memory.metadata.keywords).length := by
            simpa using hkw
          have hpred : (!(e.id == memory.id)
              && !(base.contains e.id)
              && decide (2 ≤ (memory.metadata.keywords.filter
                   (fun keyword => e.metadata.keywords.contains keyword)).length)) = true := by
            simp [hid2, hbc2, hkw2]
          rw [hpred]
          simp
        · have hb : relBodyTwo memory (base ++ pushed) e = base ++ pushed := by
            unfold relBodyTwo
            rw [if_neg (by rw [hskip]; simp)]
            rw [if_neg hkw]
          rw [hb, ih pushed hnd' (fun i hi hm => hdisj i hi (List.mem_cons_of_mem _ hm))]
          have hkw2 : ¬ 2 ≤ (List.filter (fun keyword =>
              decide (keyword ∈ e.metadata.keywords)) memory.metadata.keywords).length := by
            simpa using hkw
          have hpred : (!(e.id == memory.id)
              && !(base.contains e.id)
              && decide (2 ≤ (memory.metadata.keywords.filter
                   (fun keyword => e.metadata.keywords.contains keyword)).length)) = false := by
            simp [hkw2]
          rw [hpred]
          simp

/-- Claim C5: `findRelatedMemories` scans the table (excluding the new entry
itself) in two passes — first every entry sharing at least one
`(entityType, entityName)` pair, then every not-yet-related entry sharing at
least 2 keywords — and returns the first at-most-10 ids in scan order, with
no similarity-based ranking. -/
theorem findRelatedMemories_two_pass_spec (memory : MemoryEntry) (table : List MemoryEntry)
    (h : (table.map (fun e => e.id)).Nodup) :
    findRelatedMemories memory table
      = (relatedPassOne memory table ++ relatedPassTwo memory table).take 10 := by
  rw [findRelatedMemories_eq_foldl, relPassOne_foldl, List.nil_append]
  have h2 := relPassTwo_foldl memory (relatedPassOne memory table) table [] h (by simp)
  rw [List.append_nil] at h2
  rw [h2]
  rfl

/-- Witness entries for C5: a new entry and a stored entry sharing the
`(technology, React)` entity pair. -/
def relWitnessNew : MemoryEntry :=
  { id := "new", type := "conversation", content := ""
  , metadata :=
    { source := "chat", projectId := none, sessionId := none, userId := none
    , fileReferences := [], codeReferences := []
    , entities := [{ type := "technology", name := "React", context := "", confidence := 1 }]
    , summary := "", keywords := [], confidence := 1 }
  , embedding := none
  , createdAt := 0, updatedAt := 0, accessCount := 0, lastAccessed := 0
  , importance := 1, tags := [], relatedEntries := [] }

/-- The stored witness entry for C5. -/
def relWitnessOld : MemoryEntry :=
  { relWitnessNew with id := "old" }

/-- Witness for C5: the theorem applied to a concrete one-entry table with
duplicate-free ids. -/
theorem findRelatedMemories_two_pass_spec_witness :
    findRelatedMemories relWitnessNew [relWitnessOld]
      = (relatedPassOne relWitnessNew [relWitnessOld]
          ++ relatedPassTwo relWitnessNew [relWitnessOld]).take 10 :=
  findRelatedMemories_two_pass_spec relWitnessNew [relWitnessOld] (by simp)

/-! ### Occurrence counting through the query pipeline -/

theorem occ_append (x : String) (a b : List MemorySearchResult) :
    occurrences x (a ++ b) = occurrences x a + occurrences x b :=
  List.countP_append _ _ _

theorem occ_sublist {a b : List MemorySearchResult} (h : List.Sublist a b) (x : String) :
    occurrences x a ≤ occurrences x b :=
  h.countP_le _

theorem occ_perm {a b : List MemorySearchResult} (h : a.Perm b) (x : String) :
    occurrences x a = occurrences x b :=
  h.countP_eq _

theorem occ_nodup (rs : List MemorySearchResult)
    (h : (rs.map (fun r => r.entry.id)).Nodup) (x : String) : occurrences x rs ≤ 1 :=
  countP_le_one_of_nodup (fun (r : MemorySearchResult) => r.entry.id) x rs h

theorem occ_zero (rs : List MemorySearchResult) (x : String)
    (h : x ∉ rs.map (fun r => r.entry.id)) : occurrences x rs = 0 := by
  refine List.countP_eq_zero.mpr ?_
  intro r hr hbeq
  exact h (List.mem_map.mpr ⟨r, hr, by simpa using hbeq⟩)

theorem occ_textSearch_le_one (text : String) (table : List MemoryEntry)
    (hnd : (table.map (fun m => m.id)).Nodup) (x : String) :
    occurrences x (performTextSearch text table) ≤ 1 := by
  rw [performTextSearch_characterization]
  unfold occurrences
  rw [List.countP_map]
  have hfun : ((fun (r : MemorySearchResult) => r.entry.id == x) ∘ textResult text)
      = (fun (m : MemoryEntry) => m.id == x) := rfl
  rw [hfun]
  exact le_trans ((List.filter_sublist _).countP_le _)
    (countP_le_one_of_nodup (fun (m : MemoryEntry) => m.id) x table hnd)

/-- The per-related-id step of `getRelatedMemories`, extracted. -/
def relatedStep (table : List MemoryEntry) (result : MemorySearchResult)
    (s : List String × List MemorySearchResult) (relatedId : String) :
    List String × List MemorySearchResult :=
  if s.1.contains relatedId then s
  else
    match table.find? (fun m => m.id == relatedId) with
    | some relatedMemory =>
      (s.1 ++ [relatedId],
       s.2 ++ [{ entry := relatedMemory
               , score := result.score * 0.7
               , relevance := result.relevance * 0.7
               , matchType := MatchType.related
               , highlights := [] }])
    | none => s

theorem getRelatedMemories_eq_foldl (results : List MemorySearchResult)
    (table : List MemoryEntry) :
    getRelatedMemories results table
      = (results.foldl
          (fun s result => result.entry.relatedEntries.foldl (relatedStep table result) s)
          (results.map (fun r => r.entry.id), ([] : List MemorySearchResult))).2 := rfl

/-- Invariant carried through the relation-expansion folds: the initial
processed set stays processed, emitted ids are processed, duplicate-free and
disjoint from the initial set. -/
def RelInv (init : List String) (s : List String × List MemorySearchResult) : Prop :=
  (∀ i ∈ init, i ∈ s.1)
  ∧ (s.2.map (fun r => r.entry.id)).Nodup
  ∧ (∀ r ∈ s.2, r.entry.id ∈ s.1 ∧ r.entry.id ∉ init)

theorem relatedStep_inv (table : List MemoryEntry) (result : MemorySearchResult)
    (init : List String) (s : List String × List MemorySearchResult) (rid : String)
    (h : RelInv init s) : RelInv init (relatedStep table result s rid) := by
  unfold relatedStep
  by_cases hc : s.1.contains rid
  · rw [if_pos hc]
    exact h
  · rw [if_neg hc]
    cases hf : table.find? (fun m => m.id == rid) with
    | none => exact h
    | some relatedMemory =>
      have hrid : relatedMemory.id = rid := by
        have := List.find?_some hf
        simpa using this
      have hrnin : rid ∉ s.1 := by
        intro hin
        exact hc (by simpa using hin)
      refine ⟨?_, ?_, ?_⟩
      · intro i hi
        exact List.mem_append_left _ (h.1 i hi)
      · have hnotin : rid ∉ s.2.map (fun r => r.entry.id) := by
          intro hin
          rcases List.mem_map.mp hin with ⟨r, hr, hid⟩
          exact hrnin (hid ▸ (h.2.2 r hr).1)
        simp only [List.map_append, List.map_cons, List.map_nil]
        rw [List.nodup_append]
        refine ⟨h.2.1, by simp [hrid], ?_⟩
        intro a ha
        simp only [hrid, List.mem_singleton]
        intro heq
        exact hnotin (heq ▸ ha)
      · intro r hr
        rcases List.mem_append.mp hr with hr | hr
        · exact ⟨List.mem_append_left _ ((h.2.2 r hr).1),
            (h.2.2 r hr).2⟩
        · have hr' : r.entry.id = rid := by
            rw [List.mem_singleton.mp hr]
            exact hrid
          rw [hr']
          refine ⟨List.mem_append_right _ (by simp), ?_⟩
          intro hin
          exact hrnin (h.1 rid hin)

theorem relatedInner_inv (table : List MemoryEntry) (result : MemorySearchResult)
    (init : List String) (rids : List String) :
    ∀ s, RelInv init s → RelInv init (rids.foldl (relatedStep table result) s) := by
  induction rids with
  | nil => intro s h; exact h
  | cons rid rids ih =>
    intro s h
    rw [List.foldl_cons]
    exact ih _ (relatedStep_inv table result init s rid h)

theorem relatedOuter_inv (table : List MemoryEntry) (init : List String)
    (results : List MemorySearchResult) :
    ∀ s, RelInv init s →
      RelInv init (results.foldl
        (fun s result => result.entry.relatedEntries.foldl (relatedStep table result) s) s) := by
  induction results with
  | nil => intro s h; exact h
  | cons r results ih =>
    intro s h
    rw [List.foldl_cons]
    exact ih _ (relatedInner_inv table r init r.entry.relatedEntries s h)

theorem getRelatedMemories_inv (results : List MemorySearchResult)
    (table : List MemoryEntry) :
    ((getRelatedMemories results table).map (fun r => r.entry.id)).Nodup
    ∧ ∀ r ∈ getRelatedMemories results table,
        r.entry.id ∉ results.map (fun r => r.entry.id) := by
  have h0 : RelInv (results.map (fun r => r.entry.id))
      (results.map (fun r => r.entry.id), ([] : List MemorySearchResult)) :=
    ⟨fun i hi => hi, by simp, by simp⟩
  have h := relatedOuter_inv table (results.map (fun r => r.entry.id)) results _ h0
  rw [getRelatedMemories_eq_foldl]
  exact ⟨h.2.1, fun r hr => (h.2.2 r hr).2⟩


/-! ### The access-count contract of searchMemories -/

theorem applyQueryFilters_sublist (query : MemoryQuery) (rs : List MemorySearchResult) :
    List.Sublist (applyQueryFilters query rs) rs := by
  obtain ⟨text, type, tags, projectId, timeRange, ents, kws, minImp, maxR, incRel, semS⟩ := query
  cases type <;> cases tags <;> cases projectId <;> cases timeRange <;> cases minImp <;>
    simp only [applyQueryFilters] <;>
    (repeat' split) <;>
    (repeat
      first
      | exact List.Sublist.refl _
      | refine List.Sublist.trans (List.filter_sublist _) ?_)

theorem occ_applyQueryFilters (query : MemoryQuery) (rs : List MemorySearchResult) (x : String) :
    occurrences x (applyQueryFilters query rs) ≤ occurrences x rs :=
  occ_sublist (applyQueryFilters_sublist query rs) x

theorem occ_rankTruncate (query : MemoryQuery) (rs : List MemorySearchResult) (x : String) :
    occurrences x (rankTruncate query rs) ≤ occurrences x rs := by
  refine le_trans (occ_sublist (List.take_sublist _ _) x) ?_
  exact le_of_eq (occ_perm (List.mergeSort_perm rs _) x)

theorem occ_expandRelated (query : MemoryQuery) (table : List MemoryEntry)
    (truncated : List MemorySearchResult) (x : String)
    (h : occurrences x truncated ≤ 1) :
    occurrences x (expandRelated query table truncated) ≤ 1 := by
  unfold expandRelated
  split
  · by_cases hx : x ∈ truncated.map (fun r => r.entry.id)
    · have hrel0 : occurrences x (getRelatedMemories truncated table) = 0 := by
        refine occ_zero _ _ ?_
        intro hin
        rcases List.mem_map.mp hin with ⟨r, hr, hid⟩
        exact ((getRelatedMemories_inv truncated table).2 r hr) (hid ▸ hx)
      rw [occ_append, hrel0]
      omega
    · have htr0 : occurrences x truncated = 0 := occ_zero _ _ hx
      have hrel1 : occurrences x (getRelatedMemories truncated table) ≤ 1 :=
        occ_nodup _ (getRelatedMemories_inv truncated table).1 x
      rw [occ_append, htr0]
      omega
  · exact h

theorem searchMemories_occ_le_one (now : ℤ) (query : MemoryQuery) (st : ManagerState)
    (hsem : query.semanticSearch = false)
    (hnd : (st.table.map (fun m => m.id)).Nodup) (x : String) :
    occurrences x (searchMemories now query st).1 ≤ 1 := by
  have hbase : occurrences x
      ((match query.text with
        | some t => if t == "" then [] else performTextSearch t st.table
        | none => []) ++
       (match query.text with
        | some t =>
          if query.semanticSearch && !(t == "") then
            let ec := generateEmbedding st.cache t
            (performSemanticSearch ec.1 st.index.semantic.similarityThreshold st.table, ec.2)
          else ([], st.cache)
        | none => ([], st.cache)).1) ≤ 1 := by
    cases query.text with
    | none => simp [occurrences]
    | some t =>
      rw [hsem]
      simp only [Bool.false_and, Bool.false_eq_true, ite_false, List.append_nil]
      split
      · simp [occurrences]
      · exact occ_textSearch_le_one t st.table hnd x
  exact occ_expandRelated query st.table _ x
    (le_trans (occ_rankTruncate query _ x)
      (le_trans (occ_applyQueryFilters query _ x) hbase))

/-- Claim C2, amended: with semantic search disabled (so that every entry can
reach the result list through at most one channel), each underlying entry of
a duplicate-free table has its access statistics bumped exactly once per call
iff it appears among the results, and is untouched otherwise. (The original
claim fails when an entry is matched by both the text and the semantic
channel: it then occurs twice among the merged results and the access-update
loop increments it once per occurrence — see the counterexample.) -/
theorem searchMemories_single_channel_increment (now : ℤ) (query : MemoryQuery)
    (st : ManagerState) (hsem : query.semanticSearch = false)
    (hnd : (st.table.map (fun m => m.id)).Nodup) :
    (searchMemories now query st).2.table
      = st.table.map (fun m =>
          if (searchMemories now query st).1.any (fun r => r.entry.id == m.id)
          then { m with accessCount := m.accessCount + 1, lastAccessed := now }
          else m) := by
  have hshape : (searchMemories now query st).2.table
      = bumpAccessStats now (searchMemories now query st).1 st.table := rfl
  rw [hshape]
  unfold bumpAccessStats
  apply List.map_congr_left
  intro m hm
  have h1 := searchMemories_occ_le_one now query st hsem hnd m.id
  show (let k := occurrences m.id (searchMemories now query st).1
        if 0 < k then { m with accessCount := m.accessCount + k, lastAccessed := now } else m)
      = _
  rcases Nat.lt_or_ge 0 (occurrences m.id (searchMemories now query st).1) with hpos | hzero
  · have hk1 : occurrences m.id (searchMemories now query st).1 = 1 :=
      Nat.le_antisymm h1 hpos
    have hany : (searchMemories now query st).1.any (fun r => r.entry.id == m.id) = true := by
      rw [List.any_eq_true]
      rcases List.countP_pos_iff.mp hpos with ⟨r, hr, hp⟩
      exact ⟨r, hr, hp⟩
    simp only [hk1, hany, ite_true]
    norm_num
  · have hk0 : occurrences m.id (searchMemories now query st).1 = 0 := Nat.le_zero.mp hzero
    have hany : (searchMemories now query st).1.any (fun r => r.entry.id == m.id) = false := by
      rw [List.any_eq_false]
      exact List.countP_eq_zero.mp hk0
    simp only [hk0, hany, Bool.false_eq_true, ite_false]
    norm_num

/-! ### Concrete evaluation of the embedding of "react" -/

theorem sumSq_nil : sumSq ([] : List ℝ) = 0 := rfl

theorem set_replicate_last (n : ℕ) (x : ℝ) :
    (List.replicate (n + 1) (0 : ℝ)).set n x = List.replicate n (0 : ℝ) ++ [x] := by
  induction n with
  | zero => rfl
  | succ n ih =>
    rw [List.replicate_succ, List.set_cons_succ, ih]
    rw [show List.replicate (n + 1) (0 : ℝ) ++ [x] = 0 :: (List.replicate n (0 : ℝ) ++ [x]) by
      rw [List.replicate_succ, List.cons_append]]

/-- The deterministic embedding of the text "react": the single
curated-vocabulary token hashes to dimension 383 with weight 1, and the
vector is already normalized. -/
noncomputable def reactVec : List ℝ := computeSimpleEmbedding ("react")

theorem reactVec_eq : reactVec = List.replicate 383 (0 : ℝ) ++ [1] := by
  have htok : semanticTokenize ("react") = ["react"] := by decide
  have hfreq : computeWordFrequency ["react"] = [(("react" : String), 1)] := by decide
  have hdim : hashWordToDimension ("react") = 383 := by decide
  have hvoc : vocabulary.contains ("react") = true := by decide
  have htf : computeTFIDF ("react") 1 1 = 1 := by
    unfold computeTFIDF
    simp only [hvoc, ite_true]
    norm_num
  have hgetD : (List.replicate 384 (0 : ℝ)).getD 383 0 = 0 := by
    simp [List.getD_eq_getElem?_getD, List.getElem?_replicate]
  have h1 : reactVec
      = normalizeVector ((List.replicate 384 (0 : ℝ)).set 383
          ((List.replicate 384 (0 : ℝ)).getD 383 0 + computeTFIDF ("react") 1 1)) := by
    show computeSimpleEmbedding ("react") = _
    simp only [computeSimpleEmbedding, htok, hfreq, hdim, List.foldl_cons, List.foldl_nil,
      List.length_cons, List.length_nil, Nat.zero_add, embeddingDimension]
  rw [h1, hgetD, htf]
  have hset : (List.replicate 384 (0 : ℝ)).set 383 (0 + 1)
      = List.replicate 383 (0 : ℝ) ++ [1] := by
    rw [show ((0 : ℝ) + 1) = 1 by norm_num]
    exact set_replicate_last 383 1
  rw [hset]
  have hsum : sumSq (List.replicate 383 (0 : ℝ) ++ [1]) = 1 := by
    rw [sumSq_append, sumSq_replicate_zero, sumSq_cons, sumSq_nil]
    norm_num
  unfold normalizeVector
  rw [hsum, Real.sqrt_one]
  rw [if_neg one_ne_zero]
  simp

theorem sumSq_reactVec : sumSq reactVec = 1 := by
  rw [reactVec_eq, sumSq_append, sumSq_replicate_zero, sumSq_cons, sumSq_nil]
  norm_num

theorem reactVec_self_similarity : calculateSimilarity reactVec reactVec = 1 :=
  calculateSimilarity_self reactVec (by rw [sumSq_reactVec]; norm_num)

/-- Metadata of the counterexample entry for C2. -/
def cexMeta : MemoryMetadata :=
  { source := "chat", projectId := none, sessionId := none, userId := none
  , fileReferences := [], codeReferences := [], entities := []
  , summary := "", keywords := [], confidence := 1 }

/-- The counterexample entry for C2: content "react" (matching the query
text) with the stored embedding of "react" (cosine similarity 1 with the
query embedding, above the 0.7 threshold), never accessed. -/
noncomputable def cexEntry : MemoryEntry :=
  { id := "m1", type := "conversation", content := "react"
  , metadata := cexMeta
  , embedding := some reactVec
  , createdAt := 0, updatedAt := 0, accessCount := 0, lastAccessed := 0
  , importance := 1, tags := [], relatedEntries := [] }

/-- The counterexample query for C2: text "react" with semantic search
enabled and no filters. -/
def cexQuery : MemoryQuery :=
  { text := some ("react"), type := none, tags := none, projectId := none
  , timeRange := none, entities := none, keywords := none, minImportance := none
  , maxResults := none, includeRelated := false, semanticSearch := true }

/-- The counterexample state for C2: the single entry, fresh index, empty
embedding cache. -/
noncomputable def cexState : ManagerState :=
  { table := [cexEntry], index := initializeIndex, cache := [] }

theorem cex_semantic_channel :
    performSemanticSearch reactVec ((0.7 : ℝ)) [cexEntry]
      = [{ entry := cexEntry, score := 1, relevance := 1
         , matchType := MatchType.semantic, highlights := [] }] := by
  simp only [performSemanticSearch, List.foldl_cons, List.foldl_nil, cexEntry]
  rw [reactVec_self_similarity]
  rw [if_pos (by norm_num)]
  simp

theorem cex_text_channel :
    performTextSearch ("react") [cexEntry] = [textResult ("react") cexEntry] := by
  rw [performTextSearch_characterization]
  have hterms : splitWS (jsToLower ("react")) = ["react"] := by decide
  have hc1 : (["react"] : List String).countP
      (fun term => substrB term (jsToLower cexEntry.content)) = 1 := by decide
  have hc2 : (["react"] : List String).countP
      (fun term => substrB term (jsToLower (serializeMetadata cexEntry.metadata))) = 0 := by
    decide
  have hc3 : cexEntry.tags.countP
      (fun tag => (["react"] : List String).any (fun term => substrB term (jsToLower tag))) = 0 := by
    decide
  have hraw : textRawScore (splitWS (jsToLower ("react"))) cexEntry = 1 := by
    unfold textRawScore
    rw [hterms, hc1, hc2, hc3]
    norm_num
  rw [List.filter_cons]
  rw [if_pos (decide_eq_true (by rw [hraw]; norm_num))]
  simp

/-- Counterexample to claim C2 as stated: with the single entry `cexEntry`
(content "react", stored embedding of "react", access count 0) and the query
"react" with semantic search enabled, the entry is matched by both the text
channel and the semantic channel, appears twice among the returned results,
and its access count is incremented twice — not exactly once — by the single
`searchMemories` call. -/
theorem searchMemories_double_increment_counterexample :
    cexEntry.accessCount = 0
    ∧ occurrences ("m1") (searchMemories 0 cexQuery cexState).1 = 2
    ∧ (searchMemories 0 cexQuery cexState).2.table.map (fun m => m.accessCount) = [2] := by
  have hF : (searchMemories 0 cexQuery cexState).1
      = rankTruncate cexQuery
          (performTextSearch ("react") [cexEntry]
            ++ performSemanticSearch reactVec ((0.7 : ℝ)) [cexEntry]) := rfl
  rw [cex_text_channel, cex_semantic_channel] at hF
  have hocc2 : occurrences ("m1") (searchMemories 0 cexQuery cexState).1 = 2 := by
    rw [hF]
    simp only [rankTruncate]
    have hmax : (match cexQuery.maxResults with
        | some n => if n == 0 then 20 else n
        | none => 20) = 20 := rfl
    rw [hmax]
    rw [List.take_of_length_le (by rw [List.length_mergeSort]; norm_num)]
    rw [occ_perm (List.mergeSort_perm _ _) ("m1")]
    have hp1 : ((textResult ("react") cexEntry).entry.id == ("m1" : String)) = true := rfl
    have hp2 : ((⟨cexEntry, 1, 1, MatchType.semantic, []⟩ : MemorySearchResult).entry.id
        == ("m1" : String)) = true := rfl
    unfold occurrences
    rw [List.countP_append, List.countP_cons, List.countP_cons, List.countP_nil]
    rw [hp1, hp2]
    norm_num
  refine ⟨rfl, hocc2, ?_⟩
  have htable : (searchMemories 0 cexQuery cexState).2.table
      = bumpAccessStats 0 (searchMemories 0 cexQuery cexState).1 [cexEntry] := rfl
  rw [htable]
  simp only [bumpAccessStats, List.map_cons, List.map_nil]
  have hid : cexEntry.id = ("m1" : String) := rfl
  rw [hid, hocc2]
  norm_num
  rfl

/-- Text-only witness query for the amended C2 theorem. -/
def textOnlyQuery : MemoryQuery :=
  { text := some ("react"), type := none, tags := none, projectId := none
  , timeRange := none, entities := none, keywords := none, minImportance := none
  , maxResults := none, includeRelated := false, semanticSearch := false }

/-- Witness for the amended C2 theorem: applied at a concrete text-only query
over a concrete one-entry table, discharging the semantic-search-disabled and
duplicate-free-ids hypotheses. -/
theorem searchMemories_single_channel_increment_witness :
    (searchMemories 0 textOnlyQuery
        { table := [evictionWitnessEntry], index := initializeIndex, cache := [] }).2.table
      = [evictionWitnessEntry].map (fun m =>
          if (searchMemories 0 textOnlyQuery
                { table := [evictionWitnessEntry], index := initializeIndex, cache := [] }).1.any
              (fun r => r.entry.id == m.id)
          then { m with accessCount := m.accessCount + 1, lastAccessed := 0 }
          else m) :=
  searchMemories_single_channel_increment 0 textOnlyQuery
    { table := [evictionWitnessEntry], index := initializeIndex, cache := [] } rfl (by simp)
